import Mathlib

/-!
Shallow embedding of the ownership-handle layer of cairopp (src/cairopp.h)
and of the two facade methods the claims mention, with theorems settling
the specification claims about them.

Pointers are modelled as `Option Nat` (`none` is `nullptr`).  Calls into
the compile-time function parameters `Destroy`, `Reference` and `Copy` are
recorded as events, so that lifetime claims become statements about the
event lists an operation emits.  Assignment operators check `&other == this`
in the source; handles are therefore given identities (`Nat` ids) living in
a store, and the identity comparison becomes id equality.
-/

namespace Cairopp

/-- A raw resource pointer: `none` is `nullptr`, `some a` a non-null address. -/
abbrev Ptr := Option Nat

/-- A call into one of the compile-time function parameters of the handle
templates, with the argument pointer it received. -/
inductive Event where
  | destroyCall (p : Ptr)
  | referenceCall (p : Ptr)
  | copyCall (p : Ptr)
  deriving DecidableEq, Repr

/-- Pointers held by handles, indexed by handle identity. -/
abbrev Store := Nat → Ptr

/-- Number of `Destroy` calls in a trace. -/
def destroyCount (tr : List Event) : Nat :=
  tr.countP fun e => match e with | .destroyCall _ => true | _ => false

/-- Number of `Reference` calls in a trace. -/
def referenceCount (tr : List Event) : Nat :=
  tr.countP fun e => match e with | .referenceCall _ => true | _ => false

/-- Number of `Copy` calls in a trace. -/
def copyCount (tr : List Event) : Nat :=
  tr.countP fun e => match e with | .copyCall _ => true | _ => false

/-- `BasicHandle::destroy()`: invokes `Destroy(m_object)` iff the held pointer
is non-null.  The held pointer is left unchanged: the source never resets
`m_object` in `destroy()`. -/
def BasicHandle.destroyCalls (m_object : Ptr) : List Event :=
  if m_object ≠ none then [Event.destroyCall m_object] else []

/-- `BasicHandle()` (the defaulted constructor): `m_object` is `nullptr` via
its member initializer. -/
def BasicHandle.defaultCtor : Ptr := none

/-- `BasicHandle(T*)`: takes ownership of the given pointer. -/
def BasicHandle.ptrCtor (object : Ptr) : Ptr := object

/-- `BasicHandle(BasicHandle&&)`: `std::exchange` steals the pointer and nulls
the source.  Returns (new handle, source afterwards).  The move constructors
of `Handle`, `CopyableHandle` and `NonCopyableHandle` are all defaulted, so
they are this operation. -/
def BasicHandle.moveCtor (other : Ptr) : Ptr × Ptr := (other, none)

/-- `~BasicHandle()`: runs `destroy()`.  The destructors of `Handle`,
`CopyableHandle` and `NonCopyableHandle` are defaulted, so destruction of
every variant emits exactly these calls. -/
def BasicHandle.dtorCalls (m_object : Ptr) : List Event :=
  BasicHandle.destroyCalls m_object

/-- `BasicHandle::operator=(BasicHandle&&)` on handle ids `self` and `other`:
if `&other == this` it returns immediately; otherwise it runs `destroy()`,
then `m_object = std::exchange(other.m_object, nullptr)`.  Returns the store
afterwards and the emitted calls.  The move assignments of the three derived
variants are defaulted onto this one. -/
def BasicHandle.moveAssign (st : Store) (self other : Nat) : Store × List Event :=
  if other = self then (st, [])
  else
    (Function.update (Function.update st self (st other)) other none,
      BasicHandle.destroyCalls (st self))

/-- `Handle::reference()`: invokes `Reference(get())` iff the held pointer is
non-null. -/
def Handle.referenceCalls (m_object : Ptr) : List Event :=
  if m_object ≠ none then [Event.referenceCall m_object] else []

/-- `Handle(T*, IncreaseReferenceType)`: holds the given pointer and runs
`reference()`. -/
def Handle.ctorIncrease (object : Ptr) : Ptr × List Event :=
  (object, Handle.referenceCalls object)

/-- `Handle(const Handle&)`: holds `other.get()` and runs `reference()`.
The source handle is not modified. -/
def Handle.copyCtor (other : Ptr) : Ptr × List Event :=
  (other, Handle.referenceCalls other)

/-- `Handle::operator=(const Handle&)` on handle ids: identity check, then
`destroy()`, `set(other.get())`, `reference()` — the `reference()` call uses
the pointer just installed. -/
def Handle.copyAssign (st : Store) (self other : Nat) : Store × List Event :=
  if other = self then (st, [])
  else
    let st1 := Function.update st self (st other)
    (st1, BasicHandle.destroyCalls (st self) ++ Handle.referenceCalls (st1 self))

/-- `CopyableHandle(const CopyableHandle&)`: initializes the base with
`Copy(other.get())` — `Copy` is invoked unconditionally, with no null guard
on the source's pointer. -/
def CopyableHandle.copyCtor (Copy : Ptr → Ptr) (other : Ptr) : Ptr × List Event :=
  (Copy other, [Event.copyCall other])

/-- `CopyableHandle::operator=(const CopyableHandle&)` on handle ids:
identity check, then `destroy()`, then `set(Copy(other.get()))` — again with
no null guard on the `Copy` argument. -/
def CopyableHandle.copyAssign (Copy : Ptr → Ptr) (st : Store) (self other : Nat) :
    Store × List Event :=
  if other = self then (st, [])
  else
    (Function.update st self (Copy (st other)),
      BasicHandle.destroyCalls (st self) ++ [Event.copyCall (st other)])

/-- Calls emitted by the tail of a handle's lifetime when it holds pointer
`p`: `destroy()` is invoked explicitly `k` times and the handle is then
destructed.  Because the source's `destroy()` leaves `m_object` unchanged,
every round sees the same pointer. -/
def BasicHandle.lifecycleCalls (p : Ptr) (k : Nat) : List Event :=
  (List.replicate k (BasicHandle.destroyCalls p)).flatten ++ BasicHandle.dtorCalls p

/-! Reference counts live inside the resources, not in the wrapper.  The
following interpreter gives the emitted calls the wrapped library's
documented meaning (spec section 4.2): `Reference` increments the count
stored in the resource, `Destroy` decrements it, the resource being freed
when the count reaches zero. -/

/-- Reference count stored inside each resource, indexed by address. -/
abbrev Heap := Nat → Nat

/-- Effect of one emitted call on the resources' reference counts, following
the wrapped library's documented reference-counting contract. -/
def applyEvent (h : Heap) : Event → Heap
  | .referenceCall (some a) => Function.update h a (h a + 1)
  | .destroyCall (some a) => Function.update h a (h a - 1)
  | _ => h

/-- Reference counts after a whole trace. -/
def runEvents (h : Heap) (tr : List Event) : Heap :=
  tr.foldl applyEvent h

/-- All intermediate reference-count states along a trace, initial and final
included. -/
def heapsAlong (h : Heap) : List Event → List Heap
  | [] => [h]
  | e :: es => h :: heapsAlong (applyEvent h e) es

/-! A small machine over the exclusive-ownership operations (the ones of
`BasicHandle`, `NonCopyableHandle` and `CopyableHandle`; the copy operations
of the reference-counted `Handle` are deliberately absent).  `live` lists the
ids of the handles currently alive; `ptr` gives the pointer each one holds.
Side conditions of the form "fresh address" mirror the wrapped library
handing out a resource distinct from every live one (a fresh allocation, or
the clone produced by `Copy`). -/

/-- State of a collection of live handles. -/
structure MState where
  live : List Nat
  ptr : Store

/-- Some live handle holds address `a`. -/
def MState.Holds (s : MState) (a : Nat) : Prop :=
  ∃ i ∈ s.live, s.ptr i = some a

/-- One step of a client program using only the exclusive-ownership
operations of the handle classes. -/
inductive ExclusiveStep : MState → MState → Prop where
  | defaultCtor (s : MState) (i : Nat) (hi : i ∉ s.live) :
      ExclusiveStep s ⟨i :: s.live, Function.update s.ptr i BasicHandle.defaultCtor⟩
  | ptrCtor (s : MState) (i : Nat) (p : Ptr) (hi : i ∉ s.live)
      (hp : ∀ a, p = some a → ¬ s.Holds a) :
      ExclusiveStep s ⟨i :: s.live, Function.update s.ptr i (BasicHandle.ptrCtor p)⟩
  | moveCtor (s : MState) (i j : Nat) (hi : i ∉ s.live) (hj : j ∈ s.live) :
      ExclusiveStep s
        ⟨i :: s.live,
          Function.update (Function.update s.ptr i (BasicHandle.moveCtor (s.ptr j)).1) j
            (BasicHandle.moveCtor (s.ptr j)).2⟩
  | moveAssign (s : MState) (i j : Nat) (hi : i ∈ s.live) (hj : j ∈ s.live) :
      ExclusiveStep s ⟨s.live, (BasicHandle.moveAssign s.ptr i j).1⟩
  | copyCtor (s : MState) (Copy : Ptr → Ptr) (i j : Nat) (hi : i ∉ s.live) (hj : j ∈ s.live)
      (hfresh : ∀ a, Copy (s.ptr j) = some a → ¬ s.Holds a) :
      ExclusiveStep s
        ⟨i :: s.live, Function.update s.ptr i (CopyableHandle.copyCtor Copy (s.ptr j)).1⟩
  | copyAssign (s : MState) (Copy : Ptr → Ptr) (i j : Nat) (hi : i ∈ s.live) (hj : j ∈ s.live)
      (hfresh : ∀ a, Copy (s.ptr j) = some a → ∀ m ∈ s.live, m ≠ i → s.ptr m ≠ some a) :
      ExclusiveStep s ⟨s.live, (CopyableHandle.copyAssign Copy s.ptr i j).1⟩
  | dtor (s : MState) (i : Nat) (hi : i ∈ s.live) :
      ExclusiveStep s ⟨s.live.erase i, s.ptr⟩

/-- Exclusive ownership: no two live handles hold the same non-null pointer. -/
def MState.Exclusive (s : MState) : Prop :=
  ∀ i ∈ s.live, ∀ j ∈ s.live, i ≠ j → s.ptr i ≠ none → s.ptr i ≠ s.ptr j

/-! The two facade methods the claims name.  The wrapped library calls they
forward to are external; each is modelled, at the call boundary, from its
documented contract, and the wrapper code around the call is embedded from
the source. -/

/-- `cairo::Status`, the wrapper's strongly typed copy of the library's
status enumeration. -/
inductive Status where
  | Success
  | NoMemory
  | InvalidRestore
  | InvalidPopGroup
  | NoCurrentPoint
  | InvalidMatrix
  | InvalidStatus
  | NullPointer
  | InvalidString
  | InvalidPathData
  | ReadError
  | WriteError
  | SurfaceFinished
  | SurfaceTypeMismatch
  | PatternTypeMismatch
  | InvalidContent
  | InvalidFormat
  | InvalidVisual
  | FileNotFound
  | InvalidDash
  | InvalidDscComment
  | InvalidIndex
  | ClipNotRepresentable
  | TempFileError
  | InvalidStride
  | FontTypeMismatch
  | UserFontImmutable
  | UserFontError
  | NegativeCount
  | InvalidClusters
  | InvalidSlant
  | InvalidWeight
  | InvalidSize
  | UserFontNotImplemented
  | DeviceTypeMismatch
  | DeviceError
  | InvalidMeshConstruction
  | DeviceFinished
  | Jbig2GlobalMissing
  | PngError
  | FreetypeError
  | Win32GdiError
  | TagError
  deriving DecidableEq, Repr

/-- `cairo::TextClusterFlags`. -/
inductive TextClusterFlags where
  | None
  | Backward
  deriving DecidableEq, Repr

/-- `cairo::TextGlyphs`, with its in-class member initializers.  The glyph
and cluster element types are opaque pass-through payloads of the wrapped
library, so they stay abstract. -/
structure TextGlyphs (G C : Type) where
  result : Status := Status.Success
  glyphs : List G := []
  clusters : List C := []
  flags : TextClusterFlags := TextClusterFlags.None

/-- A call to one of the two library deallocation functions used by
`text_to_glyphs`. -/
inductive FreeCall where
  | glyphFree
  | clusterFree
  deriving DecidableEq, Repr

/-- Output of the external `cairo_scaled_font_text_to_glyphs` call: the
status it returns and, through its out-parameters, the glyph buffer, the
cluster buffer and the cluster flags (buffers given as the lists of their
elements). -/
structure TextToGlyphsOut (G C : Type) where
  status : Status
  glyphs : List G
  clusters : List C
  flags : TextClusterFlags

/-- `ScaledFont::text_to_glyphs`, as a function of the library call's
output: `ret` starts from the member initializers, `ret.result` always
receives the status, and only on `Success` are the vectors assigned from the
library buffers (which are then freed) and the flags stored.  Returns the
`TextGlyphs` value and the deallocation calls made. -/
def ScaledFont.text_to_glyphs {G C : Type} (out : TextToGlyphsOut G C) :
    TextGlyphs G C × List FreeCall :=
  let ret : TextGlyphs G C := { result := out.status }
  if ret.result = Status.Success then
    ({ ret with glyphs := out.glyphs, clusters := out.clusters, flags := out.flags },
      [FreeCall.glyphFree, FreeCall.clusterFree])
  else
    (ret, [])

/-- The state of a gradient pattern resource as far as its color-stop
accessors are concerned: the list of its color stops.  The stop payload (an
offset and a color, made of doubles) is carried abstractly. -/
structure GradientModel (A : Type) where
  stops : List A

/-- Modelled from the wrapped library's documented contract for
`cairo_pattern_get_color_stop_rgba` on a gradient pattern: returns `Success`
and the requested stop through its out-parameters when the index is in
range, and `InvalidIndex` otherwise, leaving the out-parameters at the
caller's initial values (the wrapper initializes them to defaults). -/
def cairo_pattern_get_color_stop_rgba {A : Type} [Inhabited A] (g : GradientModel A)
    (index : Int) : Status × A :=
  if h : 0 ≤ index ∧ index.toNat < g.stops.length then
    (Status.Success, g.stops.get ⟨index.toNat, h.2⟩)
  else
    (Status.InvalidIndex, default)

/-- Modelled from the wrapped library's documented contract for
`cairo_pattern_get_color_stop_count` on a gradient pattern: always succeeds
and reports the number of color stops. -/
def cairo_pattern_get_color_stop_count {A : Type} (g : GradientModel A) : Status × Int :=
  (Status.Success, (g.stops.length : Int))

/-- `GradientPattern::color_stop`: performs the library call, asserts that
the returned status is `Success`, and returns the stop read through the
out-parameters.  `none` models the assertion firing. -/
def GradientPattern.color_stop {A : Type} [Inhabited A] (g : GradientModel A)
    (index : Int) : Option A :=
  let r := cairo_pattern_get_color_stop_rgba g index
  if r.1 = Status.Success then some r.2 else none

/-- `GradientPattern::color_stop_count`: performs the library call, asserts
`Success`, and returns the reported count.  `none` models the assertion
firing. -/
def GradientPattern.color_stop_count {A : Type} (g : GradientModel A) : Option Int :=
  let r := cairo_pattern_get_color_stop_count g
  if r.1 = Status.Success then some r.2 else none

/-! Helper lemmas shared by the claim theorems. -/

theorem destroyCalls_no_null (p : Ptr) :
    Event.destroyCall none ∉ BasicHandle.destroyCalls p := by
  cases p <;> simp [BasicHandle.destroyCalls]

theorem referenceCalls_no_null (p : Ptr) :
    Event.referenceCall none ∉ Handle.referenceCalls p := by
  cases p <;> simp [Handle.referenceCalls]

theorem referenceCount_referenceCalls (p : Ptr) :
    referenceCount (Handle.referenceCalls p) = if p = none then 0 else 1 := by
  cases p <;> simp [referenceCount, Handle.referenceCalls]

theorem referenceCount_destroyCalls (p : Ptr) :
    referenceCount (BasicHandle.destroyCalls p) = 0 := by
  cases p <;> simp [referenceCount, BasicHandle.destroyCalls]

theorem copyCount_destroyCalls (p : Ptr) :
    copyCount (BasicHandle.destroyCalls p) = 0 := by
  cases p <;> simp [copyCount, BasicHandle.destroyCalls]

theorem copyCount_referenceCalls (p : Ptr) :
    copyCount (Handle.referenceCalls p) = 0 := by
  cases p <;> simp [copyCount, Handle.referenceCalls]

theorem referenceCount_append (tr₁ tr₂ : List Event) :
    referenceCount (tr₁ ++ tr₂) = referenceCount tr₁ + referenceCount tr₂ := by
  simp [referenceCount, List.countP_append]

theorem copyCount_append (tr₁ tr₂ : List Event) :
    copyCount (tr₁ ++ tr₂) = copyCount tr₁ + copyCount tr₂ := by
  simp [copyCount, List.countP_append]

theorem destroyCount_append (tr₁ tr₂ : List Event) :
    destroyCount (tr₁ ++ tr₂) = destroyCount tr₁ + destroyCount tr₂ := by
  simp [destroyCount, List.countP_append]

/-- C3: after move construction or move assignment of any handle variant
(all variants default their moves onto the `BasicHandle` ones), the target
holds the source's previous pointer, the source holds null, and destructing
the moved-from handle emits no release call. -/
theorem move_transfers_and_nulls_source :
    (∀ p : Ptr, (BasicHandle.moveCtor p).1 = p ∧ (BasicHandle.moveCtor p).2 = none
      ∧ BasicHandle.dtorCalls (BasicHandle.moveCtor p).2 = [])
    ∧ (∀ (st : Store) (i j : Nat), j ≠ i →
        (BasicHandle.moveAssign st i j).1 i = st j
        ∧ (BasicHandle.moveAssign st i j).1 j = none
        ∧ BasicHandle.dtorCalls ((BasicHandle.moveAssign st i j).1 j) = []) := by
  constructor
  · intro p
    exact ⟨rfl, rfl, by simp [BasicHandle.dtorCalls, BasicHandle.destroyCalls,
      BasicHandle.moveCtor]⟩
  · intro st i j hij
    have hij' : i ≠ j := Ne.symm hij
    refine ⟨?_, ?_, ?_⟩ <;>
      simp [BasicHandle.moveAssign, hij, Function.update_apply, hij',
        BasicHandle.dtorCalls, BasicHandle.destroyCalls]

theorem move_transfers_and_nulls_source_witness :
    (BasicHandle.moveAssign (fun n => if n = 1 then some 5 else none) 0 1).1 0 = some 5
    ∧ (BasicHandle.moveAssign (fun n => if n = 1 then some 5 else none) 0 1).1 1 = none :=
  ⟨(move_transfers_and_nulls_source.2 (fun n => if n = 1 then some 5 else none) 0 1
      (by decide)).1,
    (move_transfers_and_nulls_source.2 (fun n => if n = 1 then some 5 else none) 0 1
      (by decide)).2.1⟩

/-- C7: self-assignment (move or copy) of every handle variant is caught by
the identity comparison first: the store is unchanged and no `Destroy`,
`Reference` or `Copy` call is emitted. -/
theorem self_assignment_noop :
    ∀ (st : Store) (i : Nat) (Copy : Ptr → Ptr),
      BasicHandle.moveAssign st i i = (st, [])
      ∧ Handle.copyAssign st i i = (st, [])
      ∧ CopyableHandle.copyAssign Copy st i i = (st, []) := by
  intro st i Copy
  refine ⟨?_, ?_, ?_⟩ <;>
    simp [BasicHandle.moveAssign, Handle.copyAssign, CopyableHandle.copyAssign]

/-- C4: attaching with the `IncreaseReference` tag, copy construction and
copy assignment of a reference-counted `Handle` all leave the handle holding
the source's raw pointer, call `Reference` exactly once when that pointer is
non-null (and never when null), and never call `Copy`. -/
theorem refcounted_attach_references_once :
    (∀ p : Ptr, (Handle.ctorIncrease p).1 = p
      ∧ referenceCount (Handle.ctorIncrease p).2 = (if p = none then 0 else 1)
      ∧ copyCount (Handle.ctorIncrease p).2 = 0)
    ∧ (∀ p : Ptr, (Handle.copyCtor p).1 = p
      ∧ referenceCount (Handle.copyCtor p).2 = (if p = none then 0 else 1)
      ∧ copyCount (Handle.copyCtor p).2 = 0)
    ∧ (∀ (st : Store) (i j : Nat), j ≠ i →
        (Handle.copyAssign st i j).1 i = st j
        ∧ (Handle.copyAssign st i j).1 j = st j
        ∧ referenceCount (Handle.copyAssign st i j).2 = (if st j = none then 0 else 1)
        ∧ copyCount (Handle.copyAssign st i j).2 = 0) := by
  refine ⟨?_, ?_, ?_⟩
  · intro p
    exact ⟨rfl, referenceCount_referenceCalls p, copyCount_referenceCalls p⟩
  · intro p
    exact ⟨rfl, referenceCount_referenceCalls p, copyCount_referenceCalls p⟩
  · intro st i j hij
    have hij' : i ≠ j := Ne.symm hij
    have htr : (Handle.copyAssign st i j).2
        = BasicHandle.destroyCalls (st i) ++ Handle.referenceCalls (st j) := by
      simp [Handle.copyAssign, hij, Function.update_same]
    refine ⟨?_, ?_, ?_, ?_⟩
    · simp [Handle.copyAssign, hij, Function.update_apply]
    · simp [Handle.copyAssign, hij, Function.update_apply, hij']
    · rw [htr, referenceCount_append, referenceCount_destroyCalls,
        referenceCount_referenceCalls, Nat.zero_add]
    · rw [htr, copyCount_append, copyCount_destroyCalls, copyCount_referenceCalls]

theorem refcounted_attach_references_once_witness :
    (Handle.copyAssign (fun n => if n = 1 then some 5 else none) 0 1).1 0 = some 5 :=
  (refcounted_attach_references_once.2.2 (fun n => if n = 1 then some 5 else none) 0 1
    (by decide)).1

/-- C9: the deep-copy path has no null guard: copy-constructing from a
handle holding null still invokes `Copy`, with the null pointer as argument,
and so does copy assignment from a null-holding source. -/
theorem copy_path_has_no_null_guard (Copy : Ptr → Ptr) (st : Store) (i j : Nat)
    (hij : j ≠ i) (hnull : st j = none) :
    (CopyableHandle.copyCtor Copy none).1 = Copy none
    ∧ (CopyableHandle.copyCtor Copy none).2 = [Event.copyCall none]
    ∧ Event.copyCall none ∈ (CopyableHandle.copyAssign Copy st i j).2 := by
  refine ⟨rfl, rfl, ?_⟩
  simp [CopyableHandle.copyAssign, hij, hnull]

theorem copy_path_has_no_null_guard_witness :
    Event.copyCall none ∈ (CopyableHandle.copyAssign (fun _ => none)
      (fun _ => none) 0 1).2 :=
  (copy_path_has_no_null_guard (fun _ => none) (fun _ => none) 0 1 (by decide) rfl).2.2

/-- C10: `text_to_glyphs` always stores the library status in `result`; the
glyph and cluster vectors, the flags, and the two buffer deallocations
happen exactly when that status is `Success`, and otherwise the vectors stay
empty and the flags stay `TextClusterFlags::None`. -/
theorem text_to_glyphs_status_discipline {G C : Type} (out : TextToGlyphsOut G C) :
    (ScaledFont.text_to_glyphs out).1.result = out.status
    ∧ (ScaledFont.text_to_glyphs out).1.glyphs
        = (if out.status = Status.Success then out.glyphs else [])
    ∧ (ScaledFont.text_to_glyphs out).1.clusters
        = (if out.status = Status.Success then out.clusters else [])
    ∧ (ScaledFont.text_to_glyphs out).1.flags
        = (if out.status = Status.Success then out.flags else TextClusterFlags.None)
    ∧ (ScaledFont.text_to_glyphs out).2
        = (if out.status = Status.Success
            then [FreeCall.glyphFree, FreeCall.clusterFree] else []) := by
  by_cases h : out.status = Status.Success <;>
    simp [ScaledFont.text_to_glyphs, h]

/-- C8: on a gradient pattern with `n` color stops, `color_stop i` for any
`0 ≤ i < n` sees `Success` from the library, so its assertion holds and it
returns the stop; `color_stop_count` always sees `Success` and returns `n`. -/
theorem color_stop_assertions_hold {A : Type} [Inhabited A] (g : GradientModel A)
    (index : Int) (h0 : 0 ≤ index) (h1 : index < (g.stops.length : Int)) :
    (GradientPattern.color_stop g index).isSome = true
    ∧ GradientPattern.color_stop_count g = some ((g.stops.length : Int)) := by
  have ht : index.toNat < g.stops.length := by omega
  constructor
  · simp [GradientPattern.color_stop, cairo_pattern_get_color_stop_rgba, h0, ht]
  · simp [GradientPattern.color_stop_count, cairo_pattern_get_color_stop_count]

theorem color_stop_assertions_hold_witness :
    (GradientPattern.color_stop (⟨[7]⟩ : GradientModel Nat) 0).isSome = true
    ∧ GradientPattern.color_stop_count (⟨[7]⟩ : GradientModel Nat) = some 1 :=
  color_stop_assertions_hold ⟨[7]⟩ 0 (by decide) (by decide)

/-- C1 counterexample: `destroy()` does not reset `m_object`, so a handle
holding a non-null pointer on which `destroy()` is invoked explicitly once
and which is then destructed calls `Destroy` twice with the same pointer
value — not exactly once. -/
theorem destroy_exactly_once_counterexample :
    BasicHandle.lifecycleCalls (some 0) 1
      = [Event.destroyCall (some 0), Event.destroyCall (some 0)]
    ∧ destroyCount (BasicHandle.lifecycleCalls (some 0) 1) = 2 := by
  constructor <;> rfl

/-- C1 amended: provided `destroy()` is not invoked explicitly before
destruction (the source's `destroy()` leaves `m_object` unchanged, so an
explicit call makes the destructor release the same pointer value again),
destruction releases a non-null pointer exactly once; `Destroy` is never
invoked with a null pointer, by any lifecycle or assignment operation of any
variant; and a default-constructed handle holds null and destructs with no
release call. -/
theorem destroy_exactly_once_amended :
    (∀ p : Ptr, destroyCount (BasicHandle.lifecycleCalls p 0)
      = if p = none then 0 else 1)
    ∧ (∀ (p : Ptr) (k : Nat), Event.destroyCall none ∉ BasicHandle.lifecycleCalls p k)
    ∧ (∀ (st : Store) (i j : Nat),
        Event.destroyCall none ∉ (BasicHandle.moveAssign st i j).2)
    ∧ (∀ (st : Store) (i j : Nat),
        Event.destroyCall none ∉ (Handle.copyAssign st i j).2)
    ∧ (∀ (Copy : Ptr → Ptr) (st : Store) (i j : Nat),
        Event.destroyCall none ∉ (CopyableHandle.copyAssign Copy st i j).2)
    ∧ (BasicHandle.defaultCtor = none
        ∧ BasicHandle.lifecycleCalls BasicHandle.defaultCtor 0 = []) := by
  refine ⟨?_, ?_, ?_, ?_, ?_, rfl, rfl⟩
  · intro p
    cases p <;>
      simp [BasicHandle.lifecycleCalls, BasicHandle.dtorCalls, BasicHandle.destroyCalls,
        destroyCount]
  · intro p k
    intro hmem
    rw [BasicHandle.lifecycleCalls, List.mem_append] at hmem
    rcases hmem with hmem | hmem
    · rw [List.mem_flatten] at hmem
      obtain ⟨l, hl, hmem⟩ := hmem
      rw [List.eq_of_mem_replicate hl] at hmem
      exact destroyCalls_no_null p hmem
    · exact destroyCalls_no_null p hmem
  · intro st i j hmem
    rw [BasicHandle.moveAssign] at hmem
    by_cases h : j = i
    · simp [h] at hmem
    · rw [if_neg h] at hmem
      exact destroyCalls_no_null (st i) hmem
  · intro st i j hmem
    rw [Handle.copyAssign] at hmem
    by_cases h : j = i
    · simp [h] at hmem
    · rw [if_neg h] at hmem
      rcases List.mem_append.1 hmem with hmem | hmem
      · exact destroyCalls_no_null (st i) hmem
      · rcases hq : Function.update st i (st j) i with _ | a <;>
          simp [Handle.referenceCalls, hq] at hmem
  · intro Copy st i j hmem
    rw [CopyableHandle.copyAssign] at hmem
    by_cases h : j = i
    · simp [h] at hmem
    · rw [if_neg h] at hmem
      rcases List.mem_append.1 hmem with hmem | hmem
      · exact destroyCalls_no_null (st i) hmem
      · simp at hmem

/-- C5: starting from a resource at address `a` whose embedded count is
`c ≥ 1`, copy-constructing a second `Handle` and destructing that copy
emits a `Reference` then a `Destroy` on `a`; interpreted on the in-resource
counts this restores the count to `c`, and the count stays at least 1 at
every intermediate point, so the original handle's resource is never freed
while it is alive. -/
theorem copy_then_destroy_copy_preserves_count (a c : Nat) (hc : 1 ≤ c) (heap : Heap)
    (hheap : heap a = c) :
    (Handle.copyCtor (some a)).1 = some a
    ∧ (Handle.copyCtor (some a)).2 ++ BasicHandle.dtorCalls (Handle.copyCtor (some a)).1
        = [Event.referenceCall (some a), Event.destroyCall (some a)]
    ∧ runEvents heap ((Handle.copyCtor (some a)).2
        ++ BasicHandle.dtorCalls (Handle.copyCtor (some a)).1) a = c
    ∧ ∀ g ∈ heapsAlong heap ((Handle.copyCtor (some a)).2
        ++ BasicHandle.dtorCalls (Handle.copyCtor (some a)).1), 1 ≤ g a := by
  have htr : (Handle.copyCtor (some a)).2
      ++ BasicHandle.dtorCalls (Handle.copyCtor (some a)).1
      = [Event.referenceCall (some a), Event.destroyCall (some a)] := rfl
  refine ⟨rfl, htr, ?_, ?_⟩
  · rw [htr]
    simp [runEvents, applyEvent, Function.update_same, hheap]
  · rw [htr]
    intro g hg
    simp only [heapsAlong, applyEvent, List.mem_cons, List.mem_singleton,
      List.not_mem_nil, or_false] at hg
    rcases hg with rfl | rfl | rfl
    · omega
    · simp only [Function.update_same, hheap]
      omega
    · simp only [Function.update_same, hheap]
      omega

theorem copy_then_destroy_copy_preserves_count_witness :
    runEvents (fun _ => 1) ((Handle.copyCtor (some 0)).2
      ++ BasicHandle.dtorCalls (Handle.copyCtor (some 0)).1) 0 = 1 :=
  (copy_then_destroy_copy_preserves_count 0 1 (by decide) (fun _ => 1) rfl).2.2.1

/-- C6: deep copies are independent: `CopyableHandle` copy construction and
copy assignment invoke `Copy` exactly once and hold its result, so when the
clone is a new resource (distinct from the source's pointer) the two handles
hold different pointers afterwards, and mutating the resource at the copy's
address leaves the resource at the original's address untouched. -/
theorem deep_copy_independence (Copy : Ptr → Ptr) (other : Ptr)
    (hfresh : Copy other ≠ other) :
    ((CopyableHandle.copyCtor Copy other).1 = Copy other
      ∧ (CopyableHandle.copyCtor Copy other).1 ≠ other
      ∧ (CopyableHandle.copyCtor Copy other).2 = [Event.copyCall other])
    ∧ (∀ (st : Store) (i j : Nat), j ≠ i → Copy (st j) ≠ st j →
        (CopyableHandle.copyAssign Copy st i j).1 i
            ≠ (CopyableHandle.copyAssign Copy st i j).1 j
        ∧ copyCount (CopyableHandle.copyAssign Copy st i j).2 = 1)
    ∧ (∀ (R : Type) (res : Nat → R) (a b : Nat) (v : R),
        (CopyableHandle.copyCtor Copy other).1 = some a → other = some b →
        Function.update res a v b = res b) := by
  refine ⟨⟨rfl, hfresh, rfl⟩, ?_, ?_⟩
  · intro st i j hij hfr
    have hij' : i ≠ j := Ne.symm hij
    constructor
    · simp only [CopyableHandle.copyAssign, if_neg hij]
      rw [Function.update_same, Function.update_noteq hij]
      exact hfr
    · simp only [CopyableHandle.copyAssign, if_neg hij]
      rw [copyCount_append, copyCount_destroyCalls]
      rfl
  · intro R res a b v ha hb
    have hab : a ≠ b := by
      intro h
      apply hfresh
      show (CopyableHandle.copyCtor Copy other).1 = other
      rw [ha, hb, h]
    rw [Function.update_apply, if_neg (Ne.symm hab)]

theorem exclusive_congr (L : List Nat) (f g : Store) (h : ∀ x, f x = g x)
    (hex : MState.Exclusive ⟨L, f⟩) : MState.Exclusive ⟨L, g⟩ := by
  intro x hx y hy hxy hxn
  show g x ≠ g y
  rw [← h x, ← h y]
  apply hex x hx y hy hxy
  show f x ≠ none
  rw [h x]
  exact hxn

theorem exclusive_insert_fresh (s : MState) (i : Nat) (p : Ptr) (hi : i ∉ s.live)
    (hp : ∀ a, p = some a → ¬ s.Holds a) (hex : s.Exclusive) :
    MState.Exclusive ⟨i :: s.live, Function.update s.ptr i p⟩ := by
  intro x hx y hy hxy hxn
  simp only [List.mem_cons] at hx hy
  show Function.update s.ptr i p x ≠ Function.update s.ptr i p y
  replace hxn : Function.update s.ptr i p x ≠ none := hxn
  rcases hx with rfl | hx
  · have hy' : y ∈ s.live := hy.resolve_left (Ne.symm hxy)
    rw [Function.update_same] at hxn
    rw [Function.update_same, Function.update_noteq (Ne.symm hxy)]
    cases p with
    | none => exact absurd rfl hxn
    | some a =>
        intro heq
        exact hp a rfl ⟨y, hy', heq.symm⟩
  · have hxi : x ≠ i := fun h => hi (h ▸ hx)
    rw [Function.update_noteq hxi] at hxn ⊢
    rcases hy with rfl | hy'
    · rw [Function.update_same]
      cases p with
      | none =>
          intro heq
          exact hxn heq
      | some a =>
          intro heq
          exact hp a rfl ⟨x, hx, heq⟩
    · have hyi : y ≠ i := fun h => hi (h ▸ hy')
      rw [Function.update_noteq hyi]
      exact hex x hx y hy' hxy hxn

theorem exclusive_move (L : List Nat) (f : Store) (i j : Nat) (hij : i ≠ j)
    (hj : j ∈ L) (hex : MState.Exclusive ⟨L, f⟩) :
    MState.Exclusive ⟨L, Function.update (Function.update f i (f j)) j none⟩ := by
  intro x hx y hy hxy hxn
  show Function.update (Function.update f i (f j)) j none x
      ≠ Function.update (Function.update f i (f j)) j none y
  replace hxn : Function.update (Function.update f i (f j)) j none x ≠ none := hxn
  by_cases hxj : x = j
  · subst hxj
    rw [Function.update_same] at hxn
    exact absurd rfl hxn
  · rw [Function.update_noteq hxj] at hxn ⊢
    by_cases hyj : y = j
    · subst hyj
      rw [Function.update_same]
      exact hxn
    · rw [Function.update_noteq hyj]
      by_cases hxi : x = i
      · subst hxi
        rw [Function.update_same] at hxn ⊢
        rw [Function.update_noteq (Ne.symm hxy)]
        exact hex j hj y hy (fun h => hyj h.symm) hxn
      · rw [Function.update_noteq hxi] at hxn ⊢
        by_cases hyi : y = i
        · subst hyi
          rw [Function.update_same]
          exact hex x hx j hj hxj hxn
        · rw [Function.update_noteq hyi]
          exact hex x hx y hy hxy hxn

theorem exclusive_copy_assign (L : List Nat) (f : Store) (Copy : Ptr → Ptr) (i j : Nat)
    (hfresh : ∀ a, Copy (f j) = some a → ∀ m ∈ L, m ≠ i → f m ≠ some a)
    (hex : MState.Exclusive ⟨L, f⟩) :
    MState.Exclusive ⟨L, Function.update f i (Copy (f j))⟩ := by
  intro x hx y hy hxy hxn
  show Function.update f i (Copy (f j)) x ≠ Function.update f i (Copy (f j)) y
  replace hxn : Function.update f i (Copy (f j)) x ≠ none := hxn
  by_cases hxi : x = i
  · subst hxi
    rw [Function.update_same] at hxn
    rw [Function.update_same, Function.update_noteq (Ne.symm hxy)]
    cases hc : Copy (f j) with
    | none => exact absurd hc hxn
    | some a =>
        intro heq
        exact hfresh a hc y hy (Ne.symm hxy) heq.symm
  · rw [Function.update_noteq hxi] at hxn ⊢
    by_cases hyi : y = i
    · subst hyi
      rw [Function.update_same]
      cases hc : Copy (f j) with
      | none => exact hxn
      | some a => exact hfresh a hc x hx hxi
    · rw [Function.update_noteq hyi]
      exact hex x hx y hy hxy hxn

theorem ExclusiveStep.preserves {s t : MState} (hst : ExclusiveStep s t)
    (hex : s.Exclusive) : t.Exclusive := by
  cases hst with
  | defaultCtor i hi =>
      exact exclusive_insert_fresh s i none hi (fun a h => by cases h) hex
  | ptrCtor i p hi hp =>
      exact exclusive_insert_fresh s i p hi hp hex
  | moveCtor i j hi hj =>
      have hij : i ≠ j := fun h => hi (h ▸ hj)
      have h1 := exclusive_insert_fresh s i none hi (fun a h => by cases h) hex
      have h2 := exclusive_move (i :: s.live) (Function.update s.ptr i none) i j hij
        (List.mem_cons_of_mem i hj) h1
      refine exclusive_congr _ _ _ (fun x => ?_) h2
      show Function.update (Function.update (Function.update s.ptr i none) i
          (Function.update s.ptr i none j)) j none x
        = Function.update (Function.update s.ptr i (BasicHandle.moveCtor (s.ptr j)).1) j
            (BasicHandle.moveCtor (s.ptr j)).2 x
      rw [Function.update_idem, Function.update_noteq (Ne.symm hij)]
      rfl
  | moveAssign i j hi hj =>
      by_cases hji : j = i
      · subst hji
        refine exclusive_congr s.live s.ptr _ (fun x => ?_) hex
        simp [BasicHandle.moveAssign]
      · have h1 := exclusive_move s.live s.ptr i j (Ne.symm hji) hj hex
        refine exclusive_congr _ _ _ (fun x => ?_) h1
        simp [BasicHandle.moveAssign, hji]
  | copyCtor Copy i j hi hj hfresh =>
      exact exclusive_insert_fresh s i (Copy (s.ptr j)) hi hfresh hex
  | copyAssign Copy i j hi hj hfresh =>
      by_cases hji : j = i
      · subst hji
        refine exclusive_congr s.live s.ptr _ (fun x => ?_) hex
        simp [CopyableHandle.copyAssign]
      · have h1 := exclusive_copy_assign s.live s.ptr Copy i j hfresh hex
        refine exclusive_congr _ _ _ (fun x => ?_) h1
        simp [CopyableHandle.copyAssign, hji]
  | dtor i hi =>
      intro x hx y hy hxy hxn
      exact hex x (List.mem_of_mem_erase hx) y (List.mem_of_mem_erase hy) hxy hxn

/-- C2: along any execution built from the exclusive-ownership operations
(the `BasicHandle` constructors, moves and destructor, and `CopyableHandle`
copies whose clone is a fresh resource), no two live handles ever hold the
same non-null pointer; the copy operation of the reference-counted `Handle`
is the one that aliases: its result holds the very pointer of its source,
its only coordination being the `Reference` call interpreted on the count
inside the resource. -/
theorem exclusive_ownership_invariant :
    (∀ s t : MState, MState.Exclusive s → Relation.ReflTransGen ExclusiveStep s t →
      MState.Exclusive t)
    ∧ (∀ p : Ptr, (Handle.copyCtor p).1 = p
        ∧ (Handle.copyCtor p).2 = Handle.referenceCalls p) := by
  constructor
  · intro s t hex hreach
    induction hreach with
    | refl => exact hex
    | tail hab hstep ih => exact hstep.preserves ih
  · intro p
    exact ⟨rfl, rfl⟩

theorem exclusive_ownership_invariant_witness :
    MState.Exclusive ⟨[0], Function.update (fun _ => none) 0 (some 3)⟩ :=
  exclusive_ownership_invariant.1 ⟨[], fun _ => none⟩
    ⟨[0], Function.update (fun _ => none) 0 (some 3)⟩
    (fun i hi => absurd hi (List.not_mem_nil i))
    (Relation.ReflTransGen.single
      (ExclusiveStep.ptrCtor ⟨[], fun _ => none⟩ 0 (some 3) (List.not_mem_nil 0)
        (fun a _ hholds => by
          rcases hholds with ⟨m, hm, _⟩
          exact absurd hm (List.not_mem_nil m))))

theorem deep_copy_independence_witness :
    (CopyableHandle.copyCtor (fun _ => some 1) (some 0)).1 ≠ some 0
    ∧ Function.update (fun _ => (0 : Nat)) 1 7 0 = 0 :=
  ⟨(deep_copy_independence (fun _ => some 1) (some 0) (by decide)).1.2.1,
    (deep_copy_independence (fun _ => some 1) (some 0) (by decide)).2.2
      Nat (fun _ => 0) 1 0 7 rfl rfl⟩

end Cairopp
